import Mathlib

/-!
Shallow embedding of `packages/pyright-internal/src/analyzer/sequenceMatching.ts`:
the quantified sequence matching engine (quantified items, match trackers, the
accumulator strategy protocol, the recursive backtracking traversal, and the three
canonical accumulator strategies), together with theorems checking the
specification's claims about it.

Conventions used throughout the embedding:
- TypeScript `T | undefined` becomes `Option T`.
- JavaScript numbers used as sequence indices become `Int` (the traversal starts
  at index `-1`); occurrence counters become `Nat`.
- The recursive `step` search is embedded with an explicit fuel parameter; the
  top-level call supplies `a.length + b.length + 3` fuel, which is shown (fuel
  stability theorem) to be enough for every reachable state.
- The `console.debug` tracing and the `left`/`right` arrays that exist only to
  build trace lines are dropped; the `a_str`/`b_str`/`recursionCount` parameters
  are kept in the signatures (they feed only the dropped tracing).
- TypeScript reference equality (`===`) on `sequenceItem` objects is modelled by
  structural (decidable) equality.
-/

namespace SequenceMatching

/-- Structure `SequenceItem` from sequenceMatching.ts: a value annotated with a minimum and
optional maximum occurrence count. -/
structure SequenceItem (T : Type) where
  item : T
  minMatches : Nat
  maxMatches : Option Nat
deriving DecidableEq, Repr

/-- Derived property `SequenceItem.isRepeated`: `maxMatches === undefined || maxMatches > 1 ||
(maxMatches === 1 && minMatches === 0)`. -/
def SequenceItem.isRepeated {T : Type} (s : SequenceItem T) : Bool :=
  match s.maxMatches with
  | none => true
  | some m => m > 1 || (m == 1 && s.minMatches == 0)

/-- Class `SequenceItemMatchTracker`: an immutable per-walk progress view over a
quantified item, counting how many times it has been consumed. -/
structure SequenceItemMatchTracker (T : Type) where
  sequenceItem : SequenceItem T
  matchesCounter : Nat := 0
deriving DecidableEq, Repr

namespace SequenceItemMatchTracker

/-- Method `hasMoreMatches(): !this.sequenceItem.maxMatches || this.matchesCounter <
this.sequenceItem.maxMatches`. Note the JavaScript falsiness test: a present
`maxMatches` of `0` makes `!maxMatches` true, exactly like an absent one. -/
def hasMoreMatches {T : Type} (t : SequenceItemMatchTracker T) : Bool :=
  match t.sequenceItem.maxMatches with
  | none => true
  | some m => m == 0 || t.matchesCounter < m

/-- Method `matched()`: a new tracker with the counter incremented (value semantics). -/
def matched {T : Type} (t : SequenceItemMatchTracker T) : SequenceItemMatchTracker T :=
  ⟨t.sequenceItem, t.matchesCounter + 1⟩

/-- Method `isSkippable(): this.sequenceItem.minMatches <= 0`. -/
def isSkippable {T : Type} (t : SequenceItemMatchTracker T) : Bool :=
  t.sequenceItem.minMatches ≤ 0

end SequenceItemMatchTracker

/-- Array access `t_sequence[k]` under the bounds-checking access pattern of the traversal:
`undefined` outside the range `0 ≤ k < length`. -/
def listGet? {T : Type} (l : List T) (k : Int) : Option T :=
  if k < 0 then none else l[k.toNat]?

/-- The integer interval `[lo, hi)`, the index range walked by the skip-connection
`for` loops (`for (let k = lo; k < hi; k++)`). -/
def intRange (lo hi : Int) : List Int :=
  (List.range (hi - lo).toNat).map (fun n => lo + (n : Int))

/-- The `SequenceAccumulator` interface: the strategy is split into its operation
table over an explicit state type `σ` (the TypeScript object's `acc` field); the
`value` getter is the identity on `σ` in all three concrete strategies and is
applied by the entry points. The `copy()` operation is the identity under value
semantics and is modelled separately (mutable-store model) for the frame claim. -/
structure SequenceAccumulator (A B σ : Type) where
  «matches» : σ → Option (SequenceItemMatchTracker A) → Option (SequenceItemMatchTracker B) → Bool
  accumulate : σ → Option (SequenceItemMatchTracker A) → Option (SequenceItemMatchTracker B) → σ

open SequenceItemMatchTracker

/-- Loop counter bound for the skip-chain `for` loop: the number of remaining
iterations `k < t_sequence.length - 1` allows. -/
def skipChainFuel {T : Type} (t_sequence : List (SequenceItemMatchTracker T)) (k : Int) : Nat :=
  ((t_sequence.length : Int) - 1 - k).toNat

/-- Structural helper realising the skip-chain `for` loop, counting its
iterations down with `n`. -/
def skipChainStepsAux {T : Type} (t_sequence : List (SequenceItemMatchTracker T)) :
    Nat → Int → List (Int × Option (SequenceItemMatchTracker T))
  | 0, _ => []
  | n + 1, k =>
    if k < (t_sequence.length : Int) - 1 ∧
        (match listGet? t_sequence k with
         | some t => t.isSkippable
         | none => false) = true then
      (k + 1, listGet? t_sequence (k + 1)) :: skipChainStepsAux t_sequence n (k + 1)
    else []

/-- The skip-chain part of `getNextStepsForItem`: `for (let k = i + 1;
k < t_sequence.length - 1 && t_sequence[k].isSkippable(); k++)
t_steps.push({ index: k + 1, item: t_sequence[k + 1] })`.
(`skipChainSteps_eq` recovers the loop-shaped unfolding.) -/
def skipChainSteps {T : Type} (t_sequence : List (SequenceItemMatchTracker T)) (k : Int) :
    List (Int × Option (SequenceItemMatchTracker T)) :=
  skipChainStepsAux t_sequence (skipChainFuel t_sequence k) k

theorem skipChainStepsAux_stops {T : Type} (t_sequence : List (SequenceItemMatchTracker T))
    (n : Nat) (k : Int)
    (h : ¬(k < (t_sequence.length : Int) - 1 ∧
      (match listGet? t_sequence k with
       | some t => t.isSkippable
       | none => false) = true)) :
    skipChainStepsAux t_sequence n k = [] := by
  cases n with
  | zero => rfl
  | succ n => rw [skipChainStepsAux, if_neg h]

/-- The defining one-step unfolding of the skip-chain loop. -/
theorem skipChainSteps_eq {T : Type} (t_sequence : List (SequenceItemMatchTracker T)) (k : Int) :
    skipChainSteps t_sequence k =
      if k < (t_sequence.length : Int) - 1 ∧
          (match listGet? t_sequence k with
           | some t => t.isSkippable
           | none => false) = true then
        (k + 1, listGet? t_sequence (k + 1)) :: skipChainSteps t_sequence (k + 1)
      else [] := by
  by_cases h : k < (t_sequence.length : Int) - 1 ∧
      (match listGet? t_sequence k with
       | some t => t.isSkippable
       | none => false) = true
  · rw [if_pos h]
    unfold skipChainSteps
    have hf : skipChainFuel t_sequence k = skipChainFuel t_sequence (k + 1) + 1 := by
      unfold skipChainFuel
      omega
    rw [hf, skipChainStepsAux, if_pos h]
  · rw [if_neg h]
    exact skipChainStepsAux_stops t_sequence _ k h

/-- Function `getNextStepsForItem` (the per-side successor enumeration): optionally stay
(`hasMoreMatches`), then advance by one, then the skip chain. -/
def getNextStepsForItem {T : Type} (i : Int) (t_i : Option (SequenceItemMatchTracker T))
    (t_i_next : Option (SequenceItemMatchTracker T))
    (t_sequence : List (SequenceItemMatchTracker T)) :
    List (Int × Option (SequenceItemMatchTracker T)) :=
  ((match t_i with
    | some t => if t.hasMoreMatches then [(i, t_i)] else []
    | none => []) ++ [(i + 1, t_i_next)]) ++ skipChainSteps t_sequence (i + 1)

/-- The per-candidate accumulation of `step` (lines 593–619): fold the current
pair when `i >= 0 && j >= 0`, then handle the skip connections — note the
`if / else if`, which folds the A-side chain or, only failing that, the B-side
chain. -/
def accumulateNextStep {A B σ : Type} (S : SequenceAccumulator A B σ)
    (a_sequence : List (SequenceItemMatchTracker A))
    (b_sequence : List (SequenceItemMatchTracker B)) (i j : Int)
    (a_i : Option (SequenceItemMatchTracker A)) (b_j : Option (SequenceItemMatchTracker B))
    (acc : σ) (a_index b_index : Int) : σ :=
  let new_acc := if i ≥ 0 ∧ j ≥ 0 then S.accumulate acc a_i b_j else acc
  if a_index ≥ i + 2 then
    (intRange (i + 1) a_index).foldl
      (fun acc k => S.accumulate acc (listGet? a_sequence k) none) new_acc
  else if b_index ≥ j + 2 then
    (intRange (j + 1) b_index).foldl
      (fun acc k => S.accumulate acc none (listGet? b_sequence k)) new_acc
  else
    new_acc

/-- One unfolding of the recursive `step` function, parametric in the recursive
call `next`. The guarded early-return block (`if (i >= 0 && j >= 0) ...`) is
rendered as: the block returns exactly when `i ≥ 0 ∧ j ≥ 0` and (one side has
terminated or the current pair does not match); otherwise control falls through
to the successor enumeration. -/
def stepBody {A B σ : Type} (S : SequenceAccumulator A B σ)
    (a_sequence : List (SequenceItemMatchTracker A))
    (b_sequence : List (SequenceItemMatchTracker B))
    (next : Int → Int → Option (SequenceItemMatchTracker A) →
      Option (SequenceItemMatchTracker B) → σ → Option σ)
    (i j : Int) (a_i : Option (SequenceItemMatchTracker A))
    (b_j : Option (SequenceItemMatchTracker B)) (acc : σ) : Option σ :=
  let i_next := i + 1
  let j_next := j + 1
  let a_i_next := listGet? a_sequence i_next
  let b_j_next := listGet? b_sequence j_next
  if i ≥ 0 ∧ j ≥ 0 ∧ (a_i.isNone ∨ b_j.isNone ∨ S.«matches» acc a_i b_j = false) then
    match a_i, b_j with
    | none, none =>
      -- both have terminated, that's a match
      some acc
    | none, some b_jv =>
      -- i has terminated while j has not; if j is repeated just consume it
      if b_jv.isSkippable then
        if S.«matches» acc none (some b_jv) then
          next i j_next none b_j_next (S.accumulate acc none (some b_jv))
        else none
      else none
    | some a_iv, none =>
      -- j has terminated while i has not; if i is repeated just consume it
      if a_iv.isSkippable then
        if S.«matches» acc (some a_iv) none then
          next i_next j a_i_next none (S.accumulate acc (some a_iv) none)
        else none
      else none
    | some _, some _ =>
      -- break on mismatch
      none
  else
    let a_im := a_i.map matched
    let b_jm := b_j.map matched
    let a_steps := getNextStepsForItem i a_im a_i_next a_sequence
    let b_steps := getNextStepsForItem j b_jm b_j_next b_sequence
    let steps := a_steps.flatMap (fun a_step => b_steps.flatMap (fun b_step =>
      if a_step.1 ≠ i ∨ b_step.1 ≠ j then [(a_step, b_step)] else []))
    steps.findSome? (fun next_step =>
      let new_acc := accumulateNextStep S a_sequence b_sequence i j a_im b_jm acc
        next_step.1.1 next_step.2.1
      next next_step.1.1 next_step.2.1 next_step.1.2 next_step.2.2 new_acc)

/-- The fueled `step` search: first-success depth-first backtracking. -/
def stepFn {A B σ : Type} (S : SequenceAccumulator A B σ)
    (a_sequence : List (SequenceItemMatchTracker A))
    (b_sequence : List (SequenceItemMatchTracker B)) :
    Nat → Int → Int → Option (SequenceItemMatchTracker A) →
      Option (SequenceItemMatchTracker B) → σ → Option σ
  | 0 => fun _ _ _ _ _ => none
  | fuel + 1 => stepBody S a_sequence b_sequence (stepFn S a_sequence b_sequence fuel)

/-- The declarative counterpart of `stepBody`: collect the accumulators of all
accepting walks, in depth-first candidate order, instead of just the first. -/
def stepAllBody {A B σ : Type} (S : SequenceAccumulator A B σ)
    (a_sequence : List (SequenceItemMatchTracker A))
    (b_sequence : List (SequenceItemMatchTracker B))
    (next : Int → Int → Option (SequenceItemMatchTracker A) →
      Option (SequenceItemMatchTracker B) → σ → List σ)
    (i j : Int) (a_i : Option (SequenceItemMatchTracker A))
    (b_j : Option (SequenceItemMatchTracker B)) (acc : σ) : List σ :=
  let i_next := i + 1
  let j_next := j + 1
  let a_i_next := listGet? a_sequence i_next
  let b_j_next := listGet? b_sequence j_next
  if i ≥ 0 ∧ j ≥ 0 ∧ (a_i.isNone ∨ b_j.isNone ∨ S.«matches» acc a_i b_j = false) then
    match a_i, b_j with
    | none, none => [acc]
    | none, some b_jv =>
      if b_jv.isSkippable then
        if S.«matches» acc none (some b_jv) then
          next i j_next none b_j_next (S.accumulate acc none (some b_jv))
        else []
      else []
    | some a_iv, none =>
      if a_iv.isSkippable then
        if S.«matches» acc (some a_iv) none then
          next i_next j a_i_next none (S.accumulate acc (some a_iv) none)
        else []
      else []
    | some _, some _ => []
  else
    let a_im := a_i.map matched
    let b_jm := b_j.map matched
    let a_steps := getNextStepsForItem i a_im a_i_next a_sequence
    let b_steps := getNextStepsForItem j b_jm b_j_next b_sequence
    let steps := a_steps.flatMap (fun a_step => b_steps.flatMap (fun b_step =>
      if a_step.1 ≠ i ∨ b_step.1 ≠ j then [(a_step, b_step)] else []))
    steps.flatMap (fun next_step =>
      let new_acc := accumulateNextStep S a_sequence b_sequence i j a_im b_jm acc
        next_step.1.1 next_step.2.1
      next next_step.1.1 next_step.2.1 next_step.1.2 next_step.2.2 new_acc)

/-- Fueled enumeration of the accumulators of all accepting walks. -/
def stepAllFn {A B σ : Type} (S : SequenceAccumulator A B σ)
    (a_sequence : List (SequenceItemMatchTracker A))
    (b_sequence : List (SequenceItemMatchTracker B)) :
    Nat → Int → Int → Option (SequenceItemMatchTracker A) →
      Option (SequenceItemMatchTracker B) → σ → List σ
  | 0 => fun _ _ _ _ _ => []
  | fuel + 1 => stepAllBody S a_sequence b_sequence (stepAllFn S a_sequence b_sequence fuel)

/-- Fuel supplied at the top level: enough for every chain of recursive calls
starting at `(-1, -1)` (each call strictly increases `i + j`, which stays within
`a.length + b.length`). -/
def initFuel {A B : Type} (a_sequence : List (SequenceItemMatchTracker A))
    (b_sequence : List (SequenceItemMatchTracker B)) : Nat :=
  a_sequence.length + b_sequence.length + 3

/-- Function `traverseAccumulateSequence`: run the backtracking search from the virtual
start state `(-1, -1)`. `a_str`, `b_str` and `recursionCount` feed only the
dropped diagnostic tracing. -/
def traverseAccumulateSequence {A B σ : Type}
    (a_sequence : List (SequenceItemMatchTracker A))
    (b_sequence : List (SequenceItemMatchTracker B))
    (S : SequenceAccumulator A B σ) (acc : σ)
    (_a_str : Option A → String) (_b_str : Option B → String)
    (_recursionCount : Nat) : Option σ :=
  stepFn S a_sequence b_sequence (initFuel a_sequence b_sequence) (-1) (-1) none none acc

/-- All accepting walks' accumulators in depth-first candidate order, from the
virtual start state. -/
def traverseAcceptedWalks {A B σ : Type}
    (a_sequence : List (SequenceItemMatchTracker A))
    (b_sequence : List (SequenceItemMatchTracker B))
    (S : SequenceAccumulator A B σ) (acc : σ) : List σ :=
  stepAllFn S a_sequence b_sequence (initFuel a_sequence b_sequence) (-1) (-1) none none acc

/-- The `matches` predicate shared verbatim by `MatchSequenceAccumulator` and
`MatchAccumulateSequenceAccumulator`: both absent, or both present with
`hasMoreMatches` on each side and the caller predicate holding, or one side
absent and the other skippable. -/
def sequenceMatchesPred {A B : Type} (destMatchesSrc : A → B → Bool)
    (destItem : Option (SequenceItemMatchTracker A))
    (srcItem : Option (SequenceItemMatchTracker B)) : Bool :=
  match destItem, srcItem with
  | none, none => true
  | some d, some s =>
    d.hasMoreMatches && s.hasMoreMatches && destMatchesSrc d.sequenceItem.item s.sequenceItem.item
  | none, some s => s.isSkippable
  | some d, none => d.isSkippable

namespace MatchSequenceAccumulator

/-- Method `MatchSequenceAccumulator.accumulate`: set the flag when the folded pair
matches, otherwise keep it. -/
def accumulate {A B : Type} (destMatchesSrc : A → B → Bool) (acc : Bool)
    (dest : Option (SequenceItemMatchTracker A))
    (src : Option (SequenceItemMatchTracker B)) : Bool :=
  if sequenceMatchesPred destMatchesSrc dest src then true else acc

/-- The existence strategy (boolean accumulator, initial value `false`). -/
def strategy {A B : Type} (destMatchesSrc : A → B → Bool) : SequenceAccumulator A B Bool where
  «matches» := fun _ d s => sequenceMatchesPred destMatchesSrc d s
  accumulate := fun acc d s => accumulate destMatchesSrc acc d s

end MatchSequenceAccumulator

/-- Entry point `matchSequence`: the existence entry point, `acc?.value === true`. -/
def matchSequence {DestType SrcType : Type}
    (destSequence : List (SequenceItem DestType)) (srcSequence : List (SequenceItem SrcType))
    (destMatchesSrc : DestType → SrcType → Bool)
    (destStr : Option DestType → String) (srcStr : Option SrcType → String)
    (recursionCount : Nat) : Bool :=
  let acc := traverseAccumulateSequence
    (destSequence.map (fun destItem => ⟨destItem, 0⟩))
    (srcSequence.map (fun srcItem => ⟨srcItem, 0⟩))
    (MatchSequenceAccumulator.strategy destMatchesSrc) false destStr srcStr recursionCount
  acc == some true

/-- Record `DestItemMatches`: one group of the grouped-match result. -/
structure DestItemMatches (DestType SrcType : Type) where
  destItem : SequenceItem DestType
  matchedSrcItems : List (SequenceItem SrcType)
deriving DecidableEq, Repr

namespace MatchAccumulateSequenceAccumulator

/-- Method `MatchAccumulateSequenceAccumulator.accumulate`: both present — append the
source item to the last group when it is keyed to the same destination item,
else start a new group; source alone — drop; destination alone — ensure a
zero-occurrence group unless the last group is already keyed to it. -/
def accumulate {DestType SrcType : Type} [DecidableEq DestType]
    (acc : List (DestItemMatches DestType SrcType))
    (destType : Option (SequenceItemMatchTracker DestType))
    (srcType : Option (SequenceItemMatchTracker SrcType)) :
    List (DestItemMatches DestType SrcType) :=
  match destType, srcType with
  | some d, some s =>
    match acc.getLast? with
    | none => acc ++ [⟨d.sequenceItem, [s.sequenceItem]⟩]
    | some lastAcc =>
      if d.sequenceItem = lastAcc.destItem then
        acc.dropLast ++ [⟨lastAcc.destItem, lastAcc.matchedSrcItems ++ [s.sequenceItem]⟩]
      else
        acc ++ [⟨d.sequenceItem, [s.sequenceItem]⟩]
  | none, some _ => acc
  | some d, none =>
    match acc.getLast? with
    | none => acc ++ [⟨d.sequenceItem, []⟩]
    | some lastAcc =>
      if d.sequenceItem = lastAcc.destItem then acc
      else acc ++ [⟨d.sequenceItem, []⟩]
  | none, none => acc

/-- The grouping strategy (list-of-groups accumulator, initial value `[]`). -/
def strategy {DestType SrcType : Type} [DecidableEq DestType]
    (destMatchesSrc : DestType → SrcType → Bool) :
    SequenceAccumulator DestType SrcType (List (DestItemMatches DestType SrcType)) where
  «matches» := fun _ d s => sequenceMatchesPred destMatchesSrc d s
  accumulate := fun acc d s => accumulate acc d s

end MatchAccumulateSequenceAccumulator

/-- Entry point `matchAccumulateSequence`: the grouped-match entry point, `acc?.value`. -/
def matchAccumulateSequence {DestType SrcType : Type} [DecidableEq DestType]
    (destSequence : List (SequenceItem DestType)) (srcSequence : List (SequenceItem SrcType))
    (destMatchesSrc : DestType → SrcType → Bool)
    (destStr : Option DestType → String) (srcStr : Option SrcType → String)
    (recursionCount : Nat) : Option (List (DestItemMatches DestType SrcType)) :=
  traverseAccumulateSequence
    (destSequence.map (fun destItem => ⟨destItem, 0⟩))
    (srcSequence.map (fun srcItem => ⟨srcItem, 0⟩))
    (MatchAccumulateSequenceAccumulator.strategy destMatchesSrc) [] destStr srcStr recursionCount

namespace CommonSequenceAccumulator

/-- Method `CommonSequenceAccumulator.accumulate`: append the computed common item
unless it is repeated and identical to the (repeated) immediately preceding
entry. -/
def accumulate {DestType SrcType CommonType : Type} [DecidableEq CommonType]
    (getCommon : Option (SequenceItem DestType) → Option (SequenceItem SrcType) →
      Option (SequenceItem CommonType))
    (acc : List (SequenceItem CommonType))
    (dest : Option (SequenceItemMatchTracker DestType))
    (src : Option (SequenceItemMatchTracker SrcType)) : List (SequenceItem CommonType) :=
  match getCommon (dest.map (fun t => t.sequenceItem)) (src.map (fun t => t.sequenceItem)) with
  | none => acc
  | some common =>
    match acc.getLast? with
    | none => acc ++ [common]
    | some lastAcc =>
      if common.isRepeated = false ∨ lastAcc.isRepeated = false ∨ lastAcc ≠ common then
        acc ++ [common]
      else acc

/-- The common-subsequence strategy. -/
def strategy {DestType SrcType CommonType : Type} [DecidableEq CommonType]
    (getCommon : Option (SequenceItem DestType) → Option (SequenceItem SrcType) →
      Option (SequenceItem CommonType)) :
    SequenceAccumulator DestType SrcType (List (SequenceItem CommonType)) where
  «matches» := fun _ d s =>
    (getCommon (d.map (fun t => t.sequenceItem)) (s.map (fun t => t.sequenceItem))).isSome
  accumulate := fun acc d s => accumulate getCommon acc d s

end CommonSequenceAccumulator

/-- Entry point `getCommonSequence`: the common-subsequence entry point, `acc?.value`. -/
def getCommonSequence {DestType SrcType CommonType : Type} [DecidableEq CommonType]
    (destSequence : List (SequenceItem DestType)) (srcSequence : List (SequenceItem SrcType))
    (getCommon : Option (SequenceItem DestType) → Option (SequenceItem SrcType) →
      Option (SequenceItem CommonType))
    (destStr : Option DestType → String) (srcStr : Option SrcType → String)
    (_commonStr : Option CommonType → String)
    (recursionCount : Nat) : Option (List (SequenceItem CommonType)) :=
  traverseAccumulateSequence
    (destSequence.map (fun destItem => ⟨destItem, 0⟩))
    (srcSequence.map (fun srcItem => ⟨srcItem, 0⟩))
    (CommonSequenceAccumulator.strategy getCommon) [] destStr srcStr recursionCount

end SequenceMatching

namespace SequenceMatching

theorem findSome?_congr {γ σ : Type} (f g : γ → Option σ) (l : List γ)
    (h : ∀ c ∈ l, f c = g c) : l.findSome? f = l.findSome? g := by
  induction l with
  | nil => rfl
  | cons c cs ih =>
    rw [List.findSome?_cons, List.findSome?_cons, h c (by simp)]
    cases g c with
    | none => exact ih (fun x hx => h x (by simp [hx]))
    | some v => rfl

/-- The first-success search returns exactly the head of the list of all
accepting walks' accumulators, at every fuel level. -/
theorem stepFn_eq_head?_stepAllFn {A B σ : Type} (S : SequenceAccumulator A B σ)
    (a_sequence : List (SequenceItemMatchTracker A))
    (b_sequence : List (SequenceItemMatchTracker B)) (fuel : Nat) :
    ∀ (i j : Int) (a_i : Option (SequenceItemMatchTracker A))
      (b_j : Option (SequenceItemMatchTracker B)) (acc : σ),
      stepFn S a_sequence b_sequence fuel i j a_i b_j acc =
        (stepAllFn S a_sequence b_sequence fuel i j a_i b_j acc).head? := by
  induction fuel with
  | zero => intros; rfl
  | succ fuel ih =>
    intro i j a_i b_j acc
    simp only [stepFn, stepAllFn, stepBody, stepAllBody]
    by_cases hc : i ≥ 0 ∧ j ≥ 0 ∧ (a_i.isNone ∨ b_j.isNone ∨
      S.«matches» acc a_i b_j = false)
    · simp only [if_pos hc]
      cases a_i with
      | none =>
        cases b_j with
        | none => rfl
        | some b_jv =>
          by_cases hs : b_jv.isSkippable
          · simp only [if_pos hs]
            by_cases hm : S.«matches» acc none (some b_jv)
            · simp only [if_pos hm]; exact ih _ _ _ _ _
            · simp only [if_neg hm]; rfl
          · simp only [if_neg hs]; rfl
      | some a_iv =>
        cases b_j with
        | none =>
          by_cases hs : a_iv.isSkippable
          · simp only [if_pos hs]
            by_cases hm : S.«matches» acc (some a_iv) none
            · simp only [if_pos hm]; exact ih _ _ _ _ _
            · simp only [if_neg hm]; rfl
          · simp only [if_neg hs]; rfl
        | some _ => rfl
    · simp only [if_neg hc]
      rw [List.head?_flatMap]
      exact findSome?_congr _ _ _ (fun c _ => ih _ _ _ _ _)

end SequenceMatching

namespace SequenceMatching

theorem listGet?_isSome_iff {T : Type} (l : List T) (k : Int) :
    (listGet? l k).isSome = true ↔ 0 ≤ k ∧ k < (l.length : Int) := by
  unfold listGet?
  split
  · rename_i h
    constructor
    · intro hs; cases hs
    · intro hb; omega
  · rename_i h
    rw [Option.isSome_iff_ne_none, ne_eq, List.getElem?_eq_none_iff]
    omega

theorem listGet?_eq_none_iff {T : Type} (l : List T) (k : Int) :
    listGet? l k = none ↔ k < 0 ∨ (l.length : Int) ≤ k := by
  unfold listGet?
  split
  · rename_i h
    exact iff_of_true rfl (Or.inl h)
  · rename_i h
    rw [List.getElem?_eq_none_iff]
    omega

theorem skipChainStepsAux_mem {T : Type} (t_sequence : List (SequenceItemMatchTracker T)) :
    ∀ (n : Nat) (k : Int), ∀ s ∈ skipChainStepsAux t_sequence n k,
      k + 1 ≤ s.1 ∧ s.1 ≤ (t_sequence.length : Int) - 1 ∧ s.2 = listGet? t_sequence s.1 := by
  intro n
  induction n with
  | zero =>
    intro k s hs
    cases hs
  | succ n ih =>
    intro k s hs
    rw [skipChainStepsAux] at hs
    by_cases hcond : k < (t_sequence.length : Int) - 1 ∧
        (match listGet? t_sequence k with
         | some t => t.isSkippable
         | none => false) = true
    · rw [if_pos hcond] at hs
      rcases List.mem_cons.mp hs with h | h
      · subst h
        exact ⟨le_refl _, by omega, rfl⟩
      · have := ih (k + 1) s h
        exact ⟨by omega, this.2.1, this.2.2⟩
    · rw [if_neg hcond] at hs
      cases hs

theorem skipChainSteps_mem {T : Type} (t_sequence : List (SequenceItemMatchTracker T)) :
    ∀ (k : Int), ∀ s ∈ skipChainSteps t_sequence k,
      k + 1 ≤ s.1 ∧ s.1 ≤ (t_sequence.length : Int) - 1 ∧ s.2 = listGet? t_sequence s.1 :=
  fun k s hs => skipChainStepsAux_mem t_sequence _ k s hs

theorem getNextStepsForItem_mem {T : Type} (i : Int)
    (t_i t_i_next : Option (SequenceItemMatchTracker T))
    (t_sequence : List (SequenceItemMatchTracker T)) :
    ∀ s ∈ getNextStepsForItem i t_i t_i_next t_sequence,
      (s.1 = i ∧ s.2 = t_i ∧ t_i.isSome = true) ∨
      (s.1 = i + 1 ∧ s.2 = t_i_next) ∨
      (i + 2 ≤ s.1 ∧ s.1 ≤ (t_sequence.length : Int) - 1 ∧
        s.2 = listGet? t_sequence s.1) := by
  intro s hs
  unfold getNextStepsForItem at hs
  rw [List.mem_append, List.mem_append] at hs
  rcases hs with (hs | hs) | hs
  · cases t_i with
    | none => cases hs
    | some t =>
      have hs2 : s ∈ (if t.hasMoreMatches = true
          then [(i, (some t : Option (SequenceItemMatchTracker T)))] else []) := hs
      by_cases hm : t.hasMoreMatches = true
      · rw [if_pos hm] at hs2
        rcases List.mem_singleton.mp hs2 with h
        subst h
        exact Or.inl ⟨rfl, rfl, rfl⟩
      · rw [if_neg hm] at hs2
        cases hs2
  · rcases List.mem_singleton.mp hs with h
    subst h
    exact Or.inr (Or.inl ⟨rfl, rfl⟩)
  · have := skipChainSteps_mem t_sequence (i + 1) s hs
    exact Or.inr (Or.inr ⟨by omega, this.2.1, this.2.2⟩)

/-- Per-side well-formedness of a traversal state: the index stays within
`[-1, length]`, a present tracker sits strictly inside the sequence, and an
absent one means "before start" or "past end". -/
def SideInv {T : Type} (t_sequence : List (SequenceItemMatchTracker T)) (i : Int)
    (t_i : Option (SequenceItemMatchTracker T)) : Prop :=
  -1 ≤ i ∧ i ≤ (t_sequence.length : Int) ∧
  (t_i.isSome = true → 0 ≤ i ∧ i < (t_sequence.length : Int)) ∧
  (t_i = none → i = -1 ∨ i = (t_sequence.length : Int))

/-- Well-formedness of a full traversal state (both sides, plus: a side can be
past its end only after the search has properly started on the other side). -/
def StateInv {A B : Type} (a_sequence : List (SequenceItemMatchTracker A))
    (b_sequence : List (SequenceItemMatchTracker B)) (i j : Int)
    (a_i : Option (SequenceItemMatchTracker A))
    (b_j : Option (SequenceItemMatchTracker B)) : Prop :=
  SideInv a_sequence i a_i ∧ SideInv b_sequence j b_j ∧
  (i = (a_sequence.length : Int) → 0 ≤ j) ∧
  (j = (b_sequence.length : Int) → 0 ≤ i)

/-- Any successor produced by `getNextStepsForItem` from a well-formed side state
is again well-formed, does not move backwards, and moves strictly forward when
the side had no current tracker. -/
theorem sideNext {T : Type} (t_sequence : List (SequenceItemMatchTracker T)) (i : Int)
    (t_i : Option (SequenceItemMatchTracker T)) (s : Int × Option (SequenceItemMatchTracker T))
    (hSide : SideInv t_sequence i t_i)
    (hne : ¬(t_i = none ∧ i = (t_sequence.length : Int)))
    (hmem : s ∈ getNextStepsForItem i (t_i.map SequenceItemMatchTracker.matched)
      (listGet? t_sequence (i + 1)) t_sequence) :
    SideInv t_sequence s.1 s.2 ∧ i ≤ s.1 ∧ (t_i = none → i + 1 ≤ s.1) := by
  obtain ⟨h1, h2, h3, h4⟩ := hSide
  rcases getNextStepsForItem_mem i _ _ t_sequence s hmem with
    ⟨hidx, hitem, hsome⟩ | ⟨hidx, hitem⟩ | ⟨hidx1, hidx2, hitem⟩
  · -- stay
    cases t_i with
    | none => cases hsome
    | some t =>
      have hb := h3 rfl
      refine ⟨⟨by omega, by omega, fun _ => by omega, ?_⟩, by omega, fun h => by cases h⟩
      intro habs
      rw [hitem] at habs
      cases habs
  · -- advance by one
    have hle : i + 1 ≤ (t_sequence.length : Int) := by
      cases t_i with
      | none =>
        rcases h4 rfl with h | h
        · omega
        · exact absurd ⟨rfl, h⟩ hne
      | some t => have := h3 rfl; omega
    refine ⟨⟨by omega, by rw [hidx]; exact hle, ?_, ?_⟩, by omega, fun _ => by omega⟩
    · intro hsome
      rw [hitem] at hsome
      have := (listGet?_isSome_iff t_sequence (i + 1)).mp hsome
      omega
    · intro hnone
      rw [hitem] at hnone
      have := (listGet?_eq_none_iff t_sequence (i + 1)).mp hnone
      omega
  · -- skip chain
    have hsome : (listGet? t_sequence s.1).isSome = true := by
      rw [listGet?_isSome_iff]
      omega
    refine ⟨⟨by omega, by omega, fun _ => by omega, ?_⟩, by omega, fun _ => by omega⟩
    intro hnone
    rw [hitem] at hnone
    rw [hnone] at hsome
    cases hsome

end SequenceMatching

namespace SequenceMatching

/-- Fuel stability: from any well-formed state, once the fuel covers the number
of remaining traversal steps (each recursive call strictly increases `i + j`,
which is bounded by the two lengths), adding more fuel does not change the list
of accepting walks. In particular the top-level fuel `initFuel` is sufficient. -/
theorem stepAllFn_stable {A B σ : Type} (S : SequenceAccumulator A B σ)
    (a_sequence : List (SequenceItemMatchTracker A))
    (b_sequence : List (SequenceItemMatchTracker B)) :
    ∀ (fuel : Nat) (i j : Int) (a_i : Option (SequenceItemMatchTracker A))
      (b_j : Option (SequenceItemMatchTracker B)) (acc : σ),
      StateInv a_sequence b_sequence i j a_i b_j →
      ((a_sequence.length : Int) + (b_sequence.length : Int) + 1 - i - j).toNat ≤ fuel →
      stepAllFn S a_sequence b_sequence (fuel + 1) i j a_i b_j acc =
        stepAllFn S a_sequence b_sequence fuel i j a_i b_j acc := by
  intro fuel
  induction fuel with
  | zero =>
    intro i j a_i b_j acc hInv hB
    exfalso
    obtain ⟨⟨ha1, ha2, _, _⟩, ⟨hb1, hb2, _, _⟩, _, _⟩ := hInv
    omega
  | succ fuel ih =>
    intro i j a_i b_j acc hInv hB
    have hL : stepAllFn S a_sequence b_sequence (fuel + 1 + 1) i j a_i b_j acc =
        stepAllBody S a_sequence b_sequence (stepAllFn S a_sequence b_sequence (fuel + 1))
          i j a_i b_j acc := rfl
    have hR : stepAllFn S a_sequence b_sequence (fuel + 1) i j a_i b_j acc =
        stepAllBody S a_sequence b_sequence (stepAllFn S a_sequence b_sequence fuel)
          i j a_i b_j acc := rfl
    rw [hL, hR]
    obtain ⟨⟨ha1, ha2, ha3, ha4⟩, ⟨hb1, hb2, hb3, hb4⟩, hab, hba⟩ := hInv
    simp only [stepAllBody]
    by_cases hc : i ≥ 0 ∧ j ≥ 0 ∧ (a_i.isNone ∨ b_j.isNone ∨
      S.«matches» acc a_i b_j = false)
    · simp only [if_pos hc]
      obtain ⟨hci, hcj, _⟩ := hc
      cases a_i with
      | none =>
        cases b_j with
        | none => rfl
        | some b_jv =>
          have hjb : 0 ≤ j ∧ j < (b_sequence.length : Int) := hb3 rfl
          by_cases hsk : b_jv.isSkippable = true
          · simp only [if_pos hsk]
            by_cases hm : S.«matches» acc none (some b_jv) = true
            · simp only [if_pos hm]
              apply ih
              · refine ⟨⟨ha1, ha2, ha3, ha4⟩, ⟨by omega, by omega, ?_, ?_⟩,
                  fun _ => by omega, fun _ => by omega⟩
                · intro hs
                  have := (listGet?_isSome_iff b_sequence (j + 1)).mp hs
                  omega
                · intro hn
                  have := (listGet?_eq_none_iff b_sequence (j + 1)).mp hn
                  omega
              · omega
            · simp only [if_neg hm]
          · simp only [if_neg hsk]
      | some a_iv =>
        cases b_j with
        | none =>
          have hia : 0 ≤ i ∧ i < (a_sequence.length : Int) := ha3 rfl
          by_cases hsk : a_iv.isSkippable = true
          · simp only [if_pos hsk]
            by_cases hm : S.«matches» acc (some a_iv) none = true
            · simp only [if_pos hm]
              apply ih
              · refine ⟨⟨by omega, by omega, ?_, ?_⟩, ⟨hb1, hb2, hb3, hb4⟩,
                  fun _ => by omega, fun _ => by omega⟩
                · intro hs
                  have := (listGet?_isSome_iff a_sequence (i + 1)).mp hs
                  omega
                · intro hn
                  have := (listGet?_eq_none_iff a_sequence (i + 1)).mp hn
                  omega
              · omega
            · simp only [if_neg hm]
          · simp only [if_neg hsk]
        | some _ => rfl
    · simp only [if_neg hc]
      apply List.flatMap_congr
      intro c hcmem
      rw [List.mem_flatMap] at hcmem
      obtain ⟨a_step, haStep, hbmem⟩ := hcmem
      rw [List.mem_flatMap] at hbmem
      obtain ⟨b_step, hbStep, hcin⟩ := hbmem
      have hcase : (a_step.1 ≠ i ∨ b_step.1 ≠ j) ∧ c = (a_step, b_step) := by
        by_cases hp : a_step.1 ≠ i ∨ b_step.1 ≠ j
        · rw [if_pos hp] at hcin
          exact ⟨hp, List.mem_singleton.mp hcin⟩
        · rw [if_neg hp] at hcin
          cases hcin
      obtain ⟨hne, rfl⟩ := hcase
      dsimp only
      have hnotendA : ¬(a_i = none ∧ i = (a_sequence.length : Int)) := by
        rintro ⟨han, hilen⟩
        exact hc ⟨by omega, hab hilen, Or.inl (by simp [han])⟩
      have hnotendB : ¬(b_j = none ∧ j = (b_sequence.length : Int)) := by
        rintro ⟨hbn, hjlen⟩
        exact hc ⟨hba hjlen, by omega, Or.inr (Or.inl (by simp [hbn]))⟩
      have hA := sideNext a_sequence i a_i a_step ⟨ha1, ha2, ha3, ha4⟩ hnotendA haStep
      have hB2 := sideNext b_sequence j b_j b_step ⟨hb1, hb2, hb3, hb4⟩ hnotendB hbStep
      obtain ⟨⟨hA1, hA2, hA3, hA4⟩, hAmono, hAstrict⟩ := hA
      obtain ⟨⟨hB1, hB2', hB3, hB4⟩, hBmono, hBstrict⟩ := hB2
      have hprog : i + j + 1 ≤ a_step.1 + b_step.1 := by
        rcases hne with h | h
        · omega
        · omega
      have hcrossA : a_step.1 = (a_sequence.length : Int) → 0 ≤ b_step.1 := by
        intro _
        by_cases hj0 : 0 ≤ j
        · omega
        · have hbn : b_j = none := by
            cases b_j with
            | none => rfl
            | some t => have := hb3 rfl; omega
          have := hBstrict hbn
          omega
      have hcrossB : b_step.1 = (b_sequence.length : Int) → 0 ≤ a_step.1 := by
        intro _
        by_cases hi0 : 0 ≤ i
        · omega
        · have han : a_i = none := by
            cases a_i with
            | none => rfl
            | some t => have := ha3 rfl; omega
          have := hAstrict han
          omega
      exact ih a_step.1 b_step.1 a_step.2 b_step.2 _
        ⟨⟨hA1, hA2, hA3, hA4⟩, ⟨hB1, hB2', hB3, hB4⟩, hcrossA, hcrossB⟩ (by omega)

/-- Any fuel at least as large as the supplied one yields the same list of
accepting walks from the initial state. -/
theorem stepAllFn_initFuel_complete {A B σ : Type} (S : SequenceAccumulator A B σ)
    (a_sequence : List (SequenceItemMatchTracker A))
    (b_sequence : List (SequenceItemMatchTracker B)) (acc : σ) (extra : Nat) :
    stepAllFn S a_sequence b_sequence (initFuel a_sequence b_sequence + extra)
      (-1) (-1) none none acc =
    traverseAcceptedWalks a_sequence b_sequence S acc := by
  induction extra with
  | zero => rfl
  | succ extra ihx =>
    have hInv : StateInv a_sequence b_sequence (-1) (-1) none none := by
      refine ⟨⟨by omega, by omega, ?_, fun _ => Or.inl rfl⟩,
        ⟨by omega, by omega, ?_, fun _ => Or.inl rfl⟩, by omega, by omega⟩
      · intro h; cases h
      · intro h; cases h
    have hstep := stepAllFn_stable S a_sequence b_sequence
      (initFuel a_sequence b_sequence + extra) (-1) (-1) none none acc hInv
      (by unfold initFuel; omega)
    have h1 : initFuel a_sequence b_sequence + (extra + 1) =
        initFuel a_sequence b_sequence + extra + 1 := by omega
    rw [h1, hstep]
    exact ihx

end SequenceMatching

namespace SequenceMatching

/-- The list of `(dest, src)` pairs that `accumulateNextStep` folds, in order:
the current pair (when the search has properly started), then — because of the
`if / else if` in the source — the A-side skipped items when the A-index jumped
by at least two, and otherwise the B-side skipped items when the B-index jumped
by at least two. -/
def foldedPairs {A B : Type}
    (a_sequence : List (SequenceItemMatchTracker A))
    (b_sequence : List (SequenceItemMatchTracker B)) (i j : Int)
    (a_i : Option (SequenceItemMatchTracker A)) (b_j : Option (SequenceItemMatchTracker B))
    (a_index b_index : Int) :
    List (Option (SequenceItemMatchTracker A) × Option (SequenceItemMatchTracker B)) :=
  (if i ≥ 0 ∧ j ≥ 0 then [(a_i, b_j)] else []) ++
  (if a_index ≥ i + 2 then
    (intRange (i + 1) a_index).map (fun k => (listGet? a_sequence k, none))
  else if b_index ≥ j + 2 then
    (intRange (j + 1) b_index).map (fun k => (none, listGet? b_sequence k))
  else [])

theorem accumulateNextStep_eq_foldl {A B σ : Type} (S : SequenceAccumulator A B σ)
    (a_sequence : List (SequenceItemMatchTracker A))
    (b_sequence : List (SequenceItemMatchTracker B)) (i j : Int)
    (a_i : Option (SequenceItemMatchTracker A)) (b_j : Option (SequenceItemMatchTracker B))
    (acc : σ) (a_index b_index : Int) :
    accumulateNextStep S a_sequence b_sequence i j a_i b_j acc a_index b_index =
      (foldedPairs a_sequence b_sequence i j a_i b_j a_index b_index).foldl
        (fun acc p => S.accumulate acc p.1 p.2) acc := by
  simp only [accumulateNextStep, foldedPairs]
  rw [List.foldl_append]
  have hstart : (if i ≥ 0 ∧ j ≥ 0 then [(a_i, b_j)] else []).foldl
      (fun acc p => S.accumulate acc p.1 p.2) acc =
      if i ≥ 0 ∧ j ≥ 0 then S.accumulate acc a_i b_j else acc := by
    by_cases h : i ≥ 0 ∧ j ≥ 0
    · rw [if_pos h, if_pos h]
      rfl
    · rw [if_neg h, if_neg h]
      rfl
  rw [hstart]
  by_cases ha : a_index ≥ i + 2
  · rw [if_pos ha, if_pos ha, List.foldl_map]
  · rw [if_neg ha, if_neg ha]
    by_cases hb : b_index ≥ j + 2
    · rw [if_pos hb, if_pos hb, List.foldl_map]
    · rw [if_neg hb, if_neg hb]
      rfl

/-- A strategy over `Nat`-labelled items that records every `accumulate` call,
used to observe the order of folds. -/
def recordingStrategy : SequenceAccumulator Nat Nat
    (List (Option (SequenceItemMatchTracker Nat) × Option (SequenceItemMatchTracker Nat))) where
  «matches» := fun _ _ _ => true
  accumulate := fun acc d s => acc ++ [(d, s)]

/-- Folding a run of destination trackers against absence through the grouping
accumulator appends one zero-occurrence group per tracker, in order, provided
adjacent run items are distinct objects and the run does not start with the item
of the current last group. -/
theorem grouping_fold_absent_run {A B : Type} [DecidableEq A]
    (g : List (DestItemMatches A B)) (ts : List (SequenceItemMatchTracker A))
    (hchain : List.Chain' (fun t1 t2 => t1.sequenceItem ≠ t2.sequenceItem) ts)
    (hfirst : ∀ l ∈ g.getLast?, ∀ h ∈ ts.head?, l.destItem ≠ h.sequenceItem) :
    ts.foldl (fun acc t =>
        MatchAccumulateSequenceAccumulator.accumulate acc (some t)
          (none : Option (SequenceItemMatchTracker B))) g =
      g ++ ts.map (fun t => ⟨t.sequenceItem, []⟩) := by
  induction ts generalizing g with
  | nil => simp
  | cons t rest ih =>
    rw [List.foldl_cons]
    have hacc : MatchAccumulateSequenceAccumulator.accumulate g (some t)
        (none : Option (SequenceItemMatchTracker B)) = g ++ [⟨t.sequenceItem, []⟩] := by
      simp only [MatchAccumulateSequenceAccumulator.accumulate]
      cases hg : g.getLast? with
      | none => rfl
      | some lastAcc =>
        have hne : ¬(t.sequenceItem = lastAcc.destItem) := by
          intro heq
          exact hfirst lastAcc (by rw [hg]; exact rfl) t rfl heq.symm
        simp only [if_neg hne]
    rw [hacc]
    have hchain2 := List.chain'_cons'.mp hchain
    have hfirst2 : ∀ l ∈ (g ++ [(⟨t.sequenceItem, []⟩ : DestItemMatches A B)]).getLast?,
        ∀ h2 ∈ rest.head?, l.destItem ≠ h2.sequenceItem := by
      intro l hl h2 hh2
      have hlast : (g ++ [(⟨t.sequenceItem, []⟩ : DestItemMatches A B)]).getLast? =
          some ⟨t.sequenceItem, []⟩ := by
        rw [List.getLast?_append]
        rfl
      rw [hlast] at hl
      cases hl
      exact hchain2.1 h2 hh2
    rw [ih _ hchain2.2 hfirst2]
    simp

theorem getD_append_lt {α : Type} (l l2 : List α) (i : Nat) (d : α) (h : i < l.length) :
    (l ++ l2).getD i d = l.getD i d := by
  rw [List.getD_eq_getElem?_getD, List.getD_eq_getElem?_getD, List.getElem?_append, if_pos h]

theorem getD_set_ne {α : Type} (l : List α) (i j : Nat) (v d : α) (h : i ≠ j) :
    (l.set i v).getD j d = l.getD j d := by
  rw [List.getD_eq_getElem?_getD, List.getD_eq_getElem?_getD, List.getElem?_set_ne h]

theorem getD_concat_length {α : Type} (l : List α) (a d : α) :
    (l ++ [a]).getD l.length d = a := by
  rw [List.getD_eq_getElem?_getD, List.getElem?_concat_length]
  rfl

namespace MutableModel

/-! A mutable-store rendering of the three accumulator implementations, faithful
to the JavaScript object semantics: accumulator objects and the arrays they hold
live in stores addressed by allocation index, `copy()` allocates fresh cells,
and the mutations inside `accumulate` (`copy.acc = true`, `copy.acc.push(...)`,
`lastAcc.matchedSrcItems.push(...)`) are `set` operations on the store. This is
what makes the frame claim (`accumulate` never mutates the receiver) a real
statement rather than a byproduct of a purely functional embedding. -/

/-- Method `MatchSequenceAccumulator.accumulate` on a store of boolean `acc` fields:
make a copy of the receiver, then set the copy's field when the pair matches.
Returns the store and the address of the new instance. -/
def matchSequenceAccumulate {A B : Type} (destMatchesSrc : A → B → Bool)
    (store : List Bool) (self : Nat)
    (dest : Option (SequenceItemMatchTracker A))
    (src : Option (SequenceItemMatchTracker B)) : List Bool × Nat :=
  let copied := store ++ [store.getD self false]
  let cp := store.length
  if sequenceMatchesPred destMatchesSrc dest src then (copied.set cp true, cp) else (copied, cp)

theorem matchSequenceAccumulate_frame {A B : Type} (destMatchesSrc : A → B → Bool)
    (store : List Bool) (self : Nat)
    (dest : Option (SequenceItemMatchTracker A))
    (src : Option (SequenceItemMatchTracker B)) (hself : self < store.length) :
    (matchSequenceAccumulate destMatchesSrc store self dest src).1.getD self false =
      store.getD self false ∧
    (matchSequenceAccumulate destMatchesSrc store self dest src).2 ≠ self := by
  simp only [matchSequenceAccumulate]
  by_cases hm : sequenceMatchesPred destMatchesSrc dest src = true
  · rw [if_pos hm]
    refine ⟨?_, by omega⟩
    rw [getD_set_ne _ _ _ _ _ (by omega), getD_append_lt _ _ _ _ hself]
  · rw [if_neg hm]
    exact ⟨getD_append_lt _ _ _ _ hself, by omega⟩

/-- Method `CommonSequenceAccumulator.accumulate` on a store of `acc` arrays: copy the
receiver's array into a fresh cell (`cp.acc = [...this.acc]`), then push onto
the copy when the common item is to be appended. -/
def commonSequenceAccumulate {DestType SrcType CommonType : Type} [DecidableEq CommonType]
    (getCommon : Option (SequenceItem DestType) → Option (SequenceItem SrcType) →
      Option (SequenceItem CommonType))
    (store : List (List (SequenceItem CommonType))) (self : Nat)
    (dest : Option (SequenceItemMatchTracker DestType))
    (src : Option (SequenceItemMatchTracker SrcType)) :
    List (List (SequenceItem CommonType)) × Nat :=
  let arr := store.getD self []
  let copied := store ++ [arr]
  let cp := store.length
  match getCommon (dest.map (fun t => t.sequenceItem)) (src.map (fun t => t.sequenceItem)) with
  | none => (copied, cp)
  | some common =>
    match arr.getLast? with
    | none => (copied.set cp (arr ++ [common]), cp)
    | some lastAcc =>
      if common.isRepeated = false ∨ lastAcc.isRepeated = false ∨ lastAcc ≠ common then
        (copied.set cp (arr ++ [common]), cp)
      else (copied, cp)

theorem commonSequenceAccumulate_frame {DestType SrcType CommonType : Type}
    [DecidableEq CommonType]
    (getCommon : Option (SequenceItem DestType) → Option (SequenceItem SrcType) →
      Option (SequenceItem CommonType))
    (store : List (List (SequenceItem CommonType))) (self : Nat)
    (dest : Option (SequenceItemMatchTracker DestType))
    (src : Option (SequenceItemMatchTracker SrcType)) (hself : self < store.length) :
    (commonSequenceAccumulate getCommon store self dest src).1.getD self [] =
      store.getD self [] ∧
    (commonSequenceAccumulate getCommon store self dest src).2 ≠ self := by
  simp only [commonSequenceAccumulate]
  cases getCommon (dest.map (fun t => t.sequenceItem)) (src.map (fun t => t.sequenceItem)) with
  | none =>
    dsimp only
    exact ⟨getD_append_lt _ _ _ _ hself, by omega⟩
  | some common =>
    dsimp only
    cases (store.getD self []).getLast? with
    | none =>
      dsimp only
      refine ⟨?_, by omega⟩
      rw [getD_set_ne _ _ _ _ _ (by omega), getD_append_lt _ _ _ _ hself]
    | some lastAcc =>
      dsimp only
      by_cases hcond : common.isRepeated = false ∨ lastAcc.isRepeated = false ∨ lastAcc ≠ common
      · rw [if_pos hcond]
        refine ⟨?_, by omega⟩
        rw [getD_set_ne _ _ _ _ _ (by omega), getD_append_lt _ _ _ _ hself]
      · rw [if_neg hcond]
        exact ⟨getD_append_lt _ _ _ _ hself, by omega⟩

/-- A group object of the grouping accumulator: the destination item together
with the address of its (mutable) array of matched source items. -/
structure GroupObj (DestType SrcType : Type) where
  destItem : SequenceItem DestType
  matchedSrcItems : Nat
deriving DecidableEq, Repr

/-- Store for the grouping accumulator: `accArrays` holds the `acc` arrays of
accumulator instances (each an array of group objects), `srcArrays` the arrays
of matched source items the groups point to. -/
structure GroupStore (DestType SrcType : Type) where
  accArrays : List (List (GroupObj DestType SrcType))
  srcArrays : List (List (SequenceItem SrcType))
deriving Repr

/-- The `value` getter of an accumulator instance: dereference its groups. -/
def readValue {DestType SrcType : Type} (h : GroupStore DestType SrcType) (self : Nat) :
    List (DestItemMatches DestType SrcType) :=
  (h.accArrays.getD self []).map
    (fun g => ⟨g.destItem, h.srcArrays.getD g.matchedSrcItems []⟩)

/-- Copy step `this.acc.map((acc) => ({ destItem: acc.destItem, matchedSrcItems:
[...acc.matchedSrcItems] }))`: copy a list of groups, allocating a fresh source
array for each group, left to right. -/
def copyGroups {DestType SrcType : Type} (st : GroupStore DestType SrcType) :
    List (GroupObj DestType SrcType) →
      GroupStore DestType SrcType × List (GroupObj DestType SrcType)
  | [] => (st, [])
  | g :: rest =>
    let fresh := st.srcArrays.length
    let st1 : GroupStore DestType SrcType :=
      { st with srcArrays := st.srcArrays ++ [st.srcArrays.getD g.matchedSrcItems []] }
    let r := copyGroups st1 rest
    (r.1, ⟨g.destItem, fresh⟩ :: r.2)

/-- Method `copy()` of a grouping accumulator: copy the groups, then allocate a fresh
`acc` array holding them; returns the store and the new instance's address. -/
def copyAcc {DestType SrcType : Type} (h : GroupStore DestType SrcType) (self : Nat) :
    GroupStore DestType SrcType × Nat :=
  let r := copyGroups h (h.accArrays.getD self [])
  ({ r.1 with accArrays := r.1.accArrays ++ [r.2] }, r.1.accArrays.length)

/-- Method `MatchAccumulateSequenceAccumulator.accumulate` on the store: copy the
receiver, then push a new group / push onto the last group's source array /
leave the copy unchanged, following the source's case analysis. -/
def matchAccumulateSequenceAccumulate {DestType SrcType : Type} [DecidableEq DestType]
    (h : GroupStore DestType SrcType) (self : Nat)
    (destType : Option (SequenceItemMatchTracker DestType))
    (srcType : Option (SequenceItemMatchTracker SrcType)) :
    GroupStore DestType SrcType × Nat :=
  let c := copyAcc h self
  let h1 := c.1
  let cp := c.2
  let gs := h1.accArrays.getD cp []
  match destType, srcType with
  | some d, some s =>
    match gs.getLast? with
    | none =>
      ({ accArrays := h1.accArrays.set cp (gs ++ [⟨d.sequenceItem, h1.srcArrays.length⟩]),
         srcArrays := h1.srcArrays ++ [[s.sequenceItem]] }, cp)
    | some lastAcc =>
      if d.sequenceItem = lastAcc.destItem then
        ({ h1 with srcArrays := (h1.srcArrays.set lastAcc.matchedSrcItems
            (h1.srcArrays.getD lastAcc.matchedSrcItems [] ++ [s.sequenceItem])) }, cp)
      else
        ({ accArrays := h1.accArrays.set cp (gs ++ [⟨d.sequenceItem, h1.srcArrays.length⟩]),
           srcArrays := h1.srcArrays ++ [[s.sequenceItem]] }, cp)
  | none, some _ => (h1, cp)
  | some d, none =>
    match gs.getLast? with
    | none =>
      ({ accArrays := h1.accArrays.set cp (gs ++ [⟨d.sequenceItem, h1.srcArrays.length⟩]),
         srcArrays := h1.srcArrays ++ [[]] }, cp)
    | some lastAcc =>
      if d.sequenceItem = lastAcc.destItem then (h1, cp)
      else
        ({ accArrays := h1.accArrays.set cp (gs ++ [⟨d.sequenceItem, h1.srcArrays.length⟩]),
           srcArrays := h1.srcArrays ++ [[]] }, cp)
  | none, none => (h1, cp)

end MutableModel

end SequenceMatching

namespace SequenceMatching

namespace MutableModel

theorem copyGroups_spec {DestType SrcType : Type} :
    ∀ (gs : List (GroupObj DestType SrcType)) (st : GroupStore DestType SrcType),
      (copyGroups st gs).1.accArrays = st.accArrays ∧
      st.srcArrays.length ≤ (copyGroups st gs).1.srcArrays.length ∧
      (∀ i, i < st.srcArrays.length →
        (copyGroups st gs).1.srcArrays.getD i [] = st.srcArrays.getD i []) ∧
      (∀ g ∈ (copyGroups st gs).2, st.srcArrays.length ≤ g.matchedSrcItems) := by
  intro gs
  induction gs with
  | nil =>
    intro st
    exact ⟨rfl, le_refl _, fun i _ => rfl, fun g hg => absurd hg (List.not_mem_nil g)⟩
  | cons g rest ih =>
    intro st
    simp only [copyGroups]
    obtain ⟨ih1, ih2, ih3, ih4⟩ := ih
      { st with srcArrays := st.srcArrays ++ [st.srcArrays.getD g.matchedSrcItems []] }
    refine ⟨ih1, ?_, ?_, ?_⟩
    · simp only [List.length_append, List.length_cons, List.length_nil] at ih2
      omega
    · intro i hi
      rw [ih3 i (by simp; omega)]
      exact getD_append_lt _ _ _ _ hi
    · intro g2 hg2
      rcases List.mem_cons.mp hg2 with h | h
      · subst h
        exact le_refl _
      · have := ih4 g2 h
        simp only [List.length_append, List.length_cons, List.length_nil] at this
        omega

theorem copyAcc_spec {DestType SrcType : Type} (h : GroupStore DestType SrcType) (self : Nat) :
    (∀ i, i < h.accArrays.length →
      (copyAcc h self).1.accArrays.getD i [] = h.accArrays.getD i []) ∧
    (copyAcc h self).2 = h.accArrays.length ∧
    (∀ i, i < h.srcArrays.length →
      (copyAcc h self).1.srcArrays.getD i [] = h.srcArrays.getD i []) ∧
    h.srcArrays.length ≤ (copyAcc h self).1.srcArrays.length ∧
    (∀ g ∈ (copyAcc h self).1.accArrays.getD (copyAcc h self).2 [],
      h.srcArrays.length ≤ g.matchedSrcItems) := by
  obtain ⟨hc1, hc2, hc3, hc4⟩ := copyGroups_spec (h.accArrays.getD self []) h
  simp only [copyAcc]
  refine ⟨?_, ?_, ?_, hc2, ?_⟩
  · intro i hi
    have hlen : i < (copyGroups h (h.accArrays.getD self [])).1.accArrays.length := by
      rw [hc1]
      exact hi
    rw [getD_append_lt _ _ _ _ hlen, hc1]
  · rw [hc1]
  · exact hc3
  · rw [show (copyGroups h (h.accArrays.getD self [])).1.accArrays.length =
      ((copyGroups h (h.accArrays.getD self [])).1.accArrays).length from rfl]
    rw [getD_concat_length]
    exact hc4

theorem readValue_stable {DestType SrcType : Type}
    (h h2 : GroupStore DestType SrcType) (self : Nat)
    (hacc : h2.accArrays.getD self [] = h.accArrays.getD self [])
    (hsrc : ∀ g ∈ h.accArrays.getD self [],
      h2.srcArrays.getD g.matchedSrcItems [] = h.srcArrays.getD g.matchedSrcItems []) :
    readValue h2 self = readValue h self := by
  unfold readValue
  rw [hacc]
  exact List.map_congr_left (fun g hg => by rw [hsrc g hg])

/-- Frame property of the grouping accumulator in the mutable model: provided
the receiver is a valid instance (its address and all of its groups' source
array addresses are allocated), `accumulate` returns a distinct instance and
leaves the receiver's observable value untouched. -/
theorem matchAccumulateSequenceAccumulate_frame {DestType SrcType : Type} [DecidableEq DestType]
    (h : GroupStore DestType SrcType) (self : Nat)
    (destType : Option (SequenceItemMatchTracker DestType))
    (srcType : Option (SequenceItemMatchTracker SrcType))
    (hself : self < h.accArrays.length)
    (hrefs : ∀ g ∈ h.accArrays.getD self [], g.matchedSrcItems < h.srcArrays.length) :
    readValue (matchAccumulateSequenceAccumulate h self destType srcType).1 self =
      readValue h self ∧
    (matchAccumulateSequenceAccumulate h self destType srcType).2 ≠ self := by
  obtain ⟨hca, hcp, hcs, hclen, hcrefs⟩ := copyAcc_spec h self
  have hcpne : (copyAcc h self).2 ≠ self := by omega
  have haccSelf : (copyAcc h self).1.accArrays.getD self [] = h.accArrays.getD self [] :=
    hca self hself
  -- the three possible result stores and the frame argument for each
  have hframe1 : readValue (copyAcc h self).1 self = readValue h self :=
    readValue_stable h (copyAcc h self).1 self haccSelf
      (fun g hg => hcs g.matchedSrcItems (hrefs g hg))
  have hframe2 : ∀ (newGroups : List (GroupObj DestType SrcType))
      (newSrc : List (SequenceItem SrcType)),
      readValue ⟨(copyAcc h self).1.accArrays.set (copyAcc h self).2 newGroups,
        (copyAcc h self).1.srcArrays ++ [newSrc]⟩ self = readValue h self := by
    intro newGroups newSrc
    apply readValue_stable
    · rw [show (⟨(copyAcc h self).1.accArrays.set (copyAcc h self).2 newGroups,
        (copyAcc h self).1.srcArrays ++ [newSrc]⟩ :
          GroupStore DestType SrcType).accArrays =
        (copyAcc h self).1.accArrays.set (copyAcc h self).2 newGroups from rfl]
      rw [getD_set_ne _ _ _ _ _ (by omega)]
      exact haccSelf
    · intro g hg
      have hlt : g.matchedSrcItems < (copyAcc h self).1.srcArrays.length := by
        have := hrefs g hg
        omega
      rw [show (⟨(copyAcc h self).1.accArrays.set (copyAcc h self).2 newGroups,
        (copyAcc h self).1.srcArrays ++ [newSrc]⟩ :
          GroupStore DestType SrcType).srcArrays =
        (copyAcc h self).1.srcArrays ++ [newSrc] from rfl]
      rw [getD_append_lt _ _ _ _ hlt]
      exact hcs g.matchedSrcItems (hrefs g hg)
  have hframe3 : ∀ (lastAcc : GroupObj DestType SrcType),
      lastAcc ∈ (copyAcc h self).1.accArrays.getD (copyAcc h self).2 [] →
      ∀ (v : List (SequenceItem SrcType)),
      readValue { (copyAcc h self).1 with
          srcArrays := (copyAcc h self).1.srcArrays.set lastAcc.matchedSrcItems v } self =
        readValue h self := by
    intro lastAcc hlast v
    apply readValue_stable
    · exact haccSelf
    · intro g hg
      have hge : h.srcArrays.length ≤ lastAcc.matchedSrcItems := hcrefs lastAcc hlast
      have hlt : g.matchedSrcItems < h.srcArrays.length := hrefs g hg
      rw [show ({ (copyAcc h self).1 with
          srcArrays := (copyAcc h self).1.srcArrays.set lastAcc.matchedSrcItems v } :
            GroupStore DestType SrcType).srcArrays =
          (copyAcc h self).1.srcArrays.set lastAcc.matchedSrcItems v from rfl]
      rw [getD_set_ne _ _ _ _ _ (by omega)]
      exact hcs g.matchedSrcItems hlt
  simp only [matchAccumulateSequenceAccumulate]
  cases destType with
  | none =>
    cases srcType with
    | none =>
      dsimp only
      exact ⟨hframe1, hcpne⟩
    | some s =>
      dsimp only
      exact ⟨hframe1, hcpne⟩
  | some d =>
    cases srcType with
    | none =>
      dsimp only
      cases hlast : ((copyAcc h self).1.accArrays.getD (copyAcc h self).2 []).getLast? with
      | none =>
        dsimp only
        exact ⟨hframe2 _ _, hcpne⟩
      | some lastAcc =>
        dsimp only
        by_cases heq : d.sequenceItem = lastAcc.destItem
        · rw [if_pos heq]
          exact ⟨hframe1, hcpne⟩
        · rw [if_neg heq]
          exact ⟨hframe2 _ _, hcpne⟩
    | some s =>
      dsimp only
      cases hlast : ((copyAcc h self).1.accArrays.getD (copyAcc h self).2 []).getLast? with
      | none =>
        dsimp only
        exact ⟨hframe2 _ _, hcpne⟩
      | some lastAcc =>
        dsimp only
        have hmem : lastAcc ∈ (copyAcc h self).1.accArrays.getD (copyAcc h self).2 [] := by
          obtain ⟨hne, heq⟩ := List.mem_getLast?_eq_getLast (by rw [hlast]; exact rfl)
          rw [heq]
          exact List.getLast_mem hne
        by_cases heq : d.sequenceItem = lastAcc.destItem
        · rw [if_pos heq]
          exact ⟨hframe3 lastAcc hmem _, hcpne⟩
        · rw [if_neg heq]
          exact ⟨hframe2 _ _, hcpne⟩

end MutableModel

end SequenceMatching

namespace SequenceMatching

/-- Concrete destination pattern for the literal scenario: `[Mark1{1,1},
A{0,None}, Mark2{1,1}, B{0,None}]` with labels `1, 2, 3, 4`. -/
def claim8dest : List (SequenceItem Nat) :=
  [⟨1, 1, some 1⟩, ⟨2, 0, none⟩, ⟨3, 1, some 1⟩, ⟨4, 0, none⟩]

/-- Concrete source sequence for the literal scenario: `[Mark1, Mark2, Mark2,
Mark2, Mark2, str]` as `{1,1}` singular items with labels `1, 3, 3, 3, 3, 5`. -/
def claim8src : List (SequenceItem Nat) :=
  [⟨1, 1, some 1⟩, ⟨3, 1, some 1⟩, ⟨3, 1, some 1⟩, ⟨3, 1, some 1⟩, ⟨3, 1, some 1⟩,
    ⟨5, 1, some 1⟩]

/-- Predicate for the literal scenario: `Mark1 ~ Mark1`, `Mark2 ~ Mark2`, and
the variadic placeholder `B` matches `Mark2` and `str`; `A` matches nothing. -/
def claim8pred : Nat → Nat → Bool := fun d s =>
  (d == 1 && s == 1) || (d == 3 && s == 3) || (d == 4 && (s == 3 || s == 5))

/-- The grouping the engine produces on the literal scenario. -/
def claim8result : List (DestItemMatches Nat Nat) :=
  [⟨⟨1, 1, some 1⟩, [⟨1, 1, some 1⟩]⟩, ⟨⟨2, 0, none⟩, []⟩,
    ⟨⟨3, 1, some 1⟩, [⟨3, 1, some 1⟩]⟩,
    ⟨⟨4, 0, none⟩, [⟨3, 1, some 1⟩, ⟨3, 1, some 1⟩, ⟨3, 1, some 1⟩, ⟨5, 1, some 1⟩]⟩]

/-- Sequence used to exhibit a nonempty skip chain: two skippable items followed
by a singular one. -/
def claim10wseq : List (SequenceItemMatchTracker Nat) :=
  [⟨⟨0, 0, some 1⟩, 0⟩, ⟨⟨1, 0, some 1⟩, 0⟩, ⟨⟨2, 1, some 1⟩, 0⟩]

/-- Store holding one grouping-accumulator instance (address 0) with a single
group whose matched-source array is at address 0. -/
def claim7gstore : MutableModel.GroupStore Nat Nat :=
  ⟨[[⟨⟨0, 1, some 1⟩, 0⟩]], [[⟨5, 1, some 1⟩]]⟩

/-- Claim C1: the top-level traversal returns `none` exactly when no accepting
walk exists, and otherwise returns the accumulator of the first accepting walk
in depth-first candidate order (the head of the walk enumeration); the walk
enumeration is fuel-independent beyond the supplied fuel, so it is the complete
list of accepting walks. `None` and an accepted walk carrying a false/empty
accumulator value are thus represented distinctly. -/
theorem claim1_first_accepting_walk {A B σ : Type}
    (a_sequence : List (SequenceItemMatchTracker A))
    (b_sequence : List (SequenceItemMatchTracker B))
    (S : SequenceAccumulator A B σ) (acc : σ)
    (a_str : Option A → String) (b_str : Option B → String) (recursionCount : Nat) :
    traverseAccumulateSequence a_sequence b_sequence S acc a_str b_str recursionCount =
      (traverseAcceptedWalks a_sequence b_sequence S acc).head? ∧
    (traverseAccumulateSequence a_sequence b_sequence S acc a_str b_str recursionCount = none ↔
      traverseAcceptedWalks a_sequence b_sequence S acc = []) ∧
    (∀ extra : Nat,
      stepAllFn S a_sequence b_sequence (initFuel a_sequence b_sequence + extra)
        (-1) (-1) none none acc = traverseAcceptedWalks a_sequence b_sequence S acc) := by
  have h1 : traverseAccumulateSequence a_sequence b_sequence S acc a_str b_str recursionCount =
      (traverseAcceptedWalks a_sequence b_sequence S acc).head? :=
    stepFn_eq_head?_stepAllFn S a_sequence b_sequence (initFuel a_sequence b_sequence)
      (-1) (-1) none none acc
  refine ⟨h1, ?_, stepAllFn_initFuel_complete S a_sequence b_sequence acc⟩
  rw [h1, List.head?_eq_none_iff]

/-- Claim C2 counterexample: on two empty sequences the existence query
`matchSequence` returns `false`, not `true` as claimed — the boolean accumulator
starts at `false` and the trivial accepting walk folds no pair. -/
theorem claim2_counterexample :
    matchSequence ([] : List (SequenceItem Nat)) ([] : List (SequenceItem Nat))
      (fun _ _ => true) (fun _ => "e") (fun _ => "e") 0 = false := rfl

/-- Claim C2 (amended): on two empty sequences the traversal does accept — the
grouped query returns `Some []` and the underlying traversal returns the (still
`false`) existence accumulator — but `matchSequence` itself returns `false`,
because no pair is ever folded to raise the flag. -/
theorem claim2_amended_empty_sequences {DestType SrcType : Type} [DecidableEq DestType]
    (destMatchesSrc : DestType → SrcType → Bool)
    (destStr : Option DestType → String) (srcStr : Option SrcType → String)
    (recursionCount : Nat) :
    matchSequence ([] : List (SequenceItem DestType)) ([] : List (SequenceItem SrcType))
      destMatchesSrc destStr srcStr recursionCount = false ∧
    matchAccumulateSequence ([] : List (SequenceItem DestType))
      ([] : List (SequenceItem SrcType))
      destMatchesSrc destStr srcStr recursionCount = some [] ∧
    traverseAccumulateSequence ([] : List (SequenceItemMatchTracker DestType))
      ([] : List (SequenceItemMatchTracker SrcType))
      (MatchSequenceAccumulator.strategy destMatchesSrc) false destStr srcStr recursionCount =
      some false :=
  ⟨rfl, rfl, rfl⟩

/-- Claim C3 counterexample: in a candidate where both sides jump by two (the
B-index `2` is `j + 2`), the skipped B-item is not folded against absence — the
`else if` lets the A-side chain preempt it. -/
theorem claim3_counterexample :
    (2 : Int) ≥ 0 + 2 ∧
    ¬ ((none, some (⟨⟨11, 0, some 1⟩, 0⟩ : SequenceItemMatchTracker Nat)) ∈
        accumulateNextStep recordingStrategy
          [⟨⟨0, 1, some 1⟩, 0⟩, ⟨⟨1, 0, some 1⟩, 0⟩]
          [⟨⟨10, 1, some 1⟩, 0⟩, ⟨⟨11, 0, some 1⟩, 0⟩]
          0 0 (some ⟨⟨0, 1, some 1⟩, 1⟩) (some ⟨⟨10, 1, some 1⟩, 1⟩) [] 2 2) := by
  refine ⟨by norm_num, ?_⟩
  decide

/-- Claim C3 (amended): a candidate step folds exactly the pairs of
`foldedPairs`, in order: the current pair (once the search has started), then
the A-side skipped items against absence when the A-index jumped by two or more,
and otherwise — only when the A-side did not jump — the B-side skipped items
against absence when the B-index jumped by two or more; at most one side's skip
chain is folded per candidate. -/
theorem claim3_amended_one_sided_skip_folds {A B σ : Type} (S : SequenceAccumulator A B σ)
    (a_sequence : List (SequenceItemMatchTracker A))
    (b_sequence : List (SequenceItemMatchTracker B)) (i j : Int)
    (a_i : Option (SequenceItemMatchTracker A)) (b_j : Option (SequenceItemMatchTracker B))
    (acc : σ) (a_index b_index : Int) :
    accumulateNextStep S a_sequence b_sequence i j a_i b_j acc a_index b_index =
      (foldedPairs a_sequence b_sequence i j a_i b_j a_index b_index).foldl
        (fun acc p => S.accumulate acc p.1 p.2) acc :=
  accumulateNextStep_eq_foldl S a_sequence b_sequence i j a_i b_j acc a_index b_index

/-- Claim C4: greedy quantifier semantics — matching `[X{0,None}]` against
`[x, x]` under an always-true predicate yields exactly one group holding both
source items in order, never two one-element groups. -/
theorem claim4_greedy_single_group :
    matchAccumulateSequence [(⟨0, 0, none⟩ : SequenceItem Nat)]
      [(⟨1, 1, some 1⟩ : SequenceItem Nat), ⟨1, 1, some 1⟩]
      (fun _ _ => true) (fun _ => "g") (fun _ => "g") 0 =
      some [⟨⟨0, 0, none⟩, [⟨1, 1, some 1⟩, ⟨1, 1, some 1⟩]⟩] ∧
    matchAccumulateSequence [(⟨0, 0, none⟩ : SequenceItem Nat)]
      [(⟨1, 1, some 1⟩ : SequenceItem Nat), ⟨1, 1, some 1⟩]
      (fun _ _ => true) (fun _ => "g") (fun _ => "g") 0 ≠
      some [⟨⟨0, 0, none⟩, [⟨1, 1, some 1⟩]⟩, ⟨⟨0, 0, none⟩, [⟨1, 1, some 1⟩]⟩] :=
  ⟨rfl, by decide⟩

/-- Claim C5: folding a run of consecutive skippable destination items against
absence (no counterpart on the source side) through the grouping accumulator
produces one zero-occurrence group entry per item of the run, in original order,
exactly once each — given that adjacent run items are distinct objects and the
run does not begin with the item of the current last group (reference equality
in the source, rendered as structural distinctness here). -/
theorem claim5_zero_occurrence_groups {A B : Type} [DecidableEq A]
    (g : List (DestItemMatches A B)) (ts : List (SequenceItemMatchTracker A))
    (hchain : List.Chain' (fun t1 t2 => t1.sequenceItem ≠ t2.sequenceItem) ts)
    (hfirst : ∀ l ∈ g.getLast?, ∀ h ∈ ts.head?, l.destItem ≠ h.sequenceItem) :
    ts.foldl (fun acc t =>
        MatchAccumulateSequenceAccumulator.accumulate acc (some t)
          (none : Option (SequenceItemMatchTracker B))) g =
      g ++ ts.map (fun t => ⟨t.sequenceItem, []⟩) :=
  grouping_fold_absent_run g ts hchain hfirst

/-- Witness for claim C5: a two-item skippable run folded from the empty
accumulator yields exactly its two zero-occurrence groups, in order. -/
theorem claim5_witness :
    [(⟨⟨0, 0, some 1⟩, 0⟩ : SequenceItemMatchTracker Nat), ⟨⟨1, 0, some 1⟩, 0⟩].foldl
      (fun acc t => MatchAccumulateSequenceAccumulator.accumulate acc (some t)
        (none : Option (SequenceItemMatchTracker Nat))) [] =
      [] ++ [(⟨⟨0, 0, some 1⟩, 0⟩ : SequenceItemMatchTracker Nat), ⟨⟨1, 0, some 1⟩, 0⟩].map
        (fun t => ⟨t.sequenceItem, []⟩) :=
  claim5_zero_occurrence_groups []
    [⟨⟨0, 0, some 1⟩, 0⟩, ⟨⟨1, 0, some 1⟩, 0⟩]
    (by rw [List.chain'_cons]
        exact ⟨by decide, List.chain'_singleton _⟩)
    (by simp)

/-- Claim C6 counterexample: a tracker whose item has `maxMatches = 0` (present)
and counter `0` reports `hasMoreMatches() = true` — the JavaScript falsiness
test `!maxMatches` treats a present `0` like an absent bound — while the claimed
characterisation (absent, or counter below the bound) is false there. -/
theorem claim6_counterexample :
    ¬ (SequenceItemMatchTracker.hasMoreMatches
        (⟨⟨0, 0, some 0⟩, 0⟩ : SequenceItemMatchTracker Nat) = true ↔
      ((⟨⟨0, 0, some 0⟩, 0⟩ : SequenceItemMatchTracker Nat).sequenceItem.maxMatches = none ∨
        ∀ m, (⟨⟨0, 0, some 0⟩, 0⟩ : SequenceItemMatchTracker Nat).sequenceItem.maxMatches =
            some m →
          (⟨⟨0, 0, some 0⟩, 0⟩ : SequenceItemMatchTracker Nat).matchesCounter < m)) := by
  intro hiff
  rcases hiff.mp rfl with h | h
  · exact Option.noConfusion h
  · exact absurd (h 0 rfl) (by omega)

/-- Claim C6 (amended): `hasMoreMatches()` is true iff `maxMatches` is absent,
or `maxMatches` is a present `0` (JavaScript falsiness), or the counter is below
the present bound. -/
theorem claim6_amended_hasMoreMatches {T : Type} (t : SequenceItemMatchTracker T) :
    t.hasMoreMatches = true ↔
      (t.sequenceItem.maxMatches = none ∨ t.sequenceItem.maxMatches = some 0 ∨
        ∀ m, t.sequenceItem.maxMatches = some m → t.matchesCounter < m) := by
  unfold SequenceItemMatchTracker.hasMoreMatches
  cases hm : t.sequenceItem.maxMatches with
  | none => simp
  | some m =>
    cases m with
    | zero => simp
    | succ m2 =>
      simp only [beq_iff_eq, Bool.or_eq_true, decide_eq_true_eq]
      constructor
      · intro hlt
        right
        right
        intro m3 hm3
        have hq := Option.some.inj hm3
        rw [← hq]
        rcases hlt with h | h
        · exact absurd h (by omega)
        · exact h
      · intro hr
        rcases hr with h | h | h
        · exact Option.noConfusion h
        · exact absurd (Option.some.inj h) (by omega)
        · right
          exact h (m2 + 1) rfl

/-- Claim C7: for each of the three accumulator strategies, rendered over the
mutable store model that mirrors the JavaScript object semantics, `accumulate`
allocates and returns a new instance and leaves the receiver's observable value
unchanged (given a validly allocated receiver). -/
theorem claim7_accumulate_never_mutates_receiver {A B CommonType : Type}
    [DecidableEq A] [DecidableEq CommonType]
    (destMatchesSrc : A → B → Bool)
    (getCommon : Option (SequenceItem A) → Option (SequenceItem B) →
      Option (SequenceItem CommonType)) :
    (∀ (store : List Bool) (self : Nat) (dest : Option (SequenceItemMatchTracker A))
        (src : Option (SequenceItemMatchTracker B)), self < store.length →
      (MutableModel.matchSequenceAccumulate destMatchesSrc store self dest src).1.getD
          self false = store.getD self false ∧
      (MutableModel.matchSequenceAccumulate destMatchesSrc store self dest src).2 ≠ self) ∧
    (∀ (h : MutableModel.GroupStore A B) (self : Nat)
        (destType : Option (SequenceItemMatchTracker A))
        (srcType : Option (SequenceItemMatchTracker B)),
      self < h.accArrays.length →
      (∀ g ∈ h.accArrays.getD self [], g.matchedSrcItems < h.srcArrays.length) →
      MutableModel.readValue
          (MutableModel.matchAccumulateSequenceAccumulate h self destType srcType).1 self =
        MutableModel.readValue h self ∧
      (MutableModel.matchAccumulateSequenceAccumulate h self destType srcType).2 ≠ self) ∧
    (∀ (store : List (List (SequenceItem CommonType))) (self : Nat)
        (dest : Option (SequenceItemMatchTracker A))
        (src : Option (SequenceItemMatchTracker B)), self < store.length →
      (MutableModel.commonSequenceAccumulate getCommon store self dest src).1.getD self [] =
        store.getD self [] ∧
      (MutableModel.commonSequenceAccumulate getCommon store self dest src).2 ≠ self) :=
  ⟨fun store self dest src hself =>
    MutableModel.matchSequenceAccumulate_frame destMatchesSrc store self dest src hself,
   fun h self destType srcType hself hrefs =>
    MutableModel.matchAccumulateSequenceAccumulate_frame h self destType srcType hself hrefs,
   fun store self dest src hself =>
    MutableModel.commonSequenceAccumulate_frame getCommon store self dest src hself⟩

/-- Witness for claim C7: concrete one-instance stores for the three strategies;
the receiver's value is unchanged and the returned instance is new. -/
theorem claim7_witness :
    ((MutableModel.matchSequenceAccumulate (fun (_ : Nat) (_ : Nat) => true) [false] 0
        none none).1.getD 0 false = [false].getD 0 false ∧
      (MutableModel.matchSequenceAccumulate (fun (_ : Nat) (_ : Nat) => true) [false] 0
        none none).2 ≠ 0) ∧
    (MutableModel.readValue
        (MutableModel.matchAccumulateSequenceAccumulate claim7gstore 0
          (some ⟨⟨0, 1, some 1⟩, 1⟩) (some ⟨⟨6, 1, some 1⟩, 1⟩)).1 0 =
      MutableModel.readValue claim7gstore 0 ∧
      (MutableModel.matchAccumulateSequenceAccumulate claim7gstore 0
        (some ⟨⟨0, 1, some 1⟩, 1⟩) (some ⟨⟨6, 1, some 1⟩, 1⟩)).2 ≠ 0) ∧
    ((MutableModel.commonSequenceAccumulate
        (fun (_ : Option (SequenceItem Nat)) (_ : Option (SequenceItem Nat)) =>
          some (⟨0, 0, none⟩ : SequenceItem Nat)) [[⟨7, 1, some 1⟩]] 0
        none none).1.getD 0 [] = [[(⟨7, 1, some 1⟩ : SequenceItem Nat)]].getD 0 [] ∧
      (MutableModel.commonSequenceAccumulate
        (fun (_ : Option (SequenceItem Nat)) (_ : Option (SequenceItem Nat)) =>
          some (⟨0, 0, none⟩ : SequenceItem Nat)) [[⟨7, 1, some 1⟩]] 0
        none none).2 ≠ 0) := by
  obtain ⟨h1, h2, h3⟩ := claim7_accumulate_never_mutates_receiver
    (fun (_ : Nat) (_ : Nat) => true)
    (fun (_ : Option (SequenceItem Nat)) (_ : Option (SequenceItem Nat)) =>
      some (⟨0, 0, none⟩ : SequenceItem Nat))
  exact ⟨h1 [false] 0 none none (by decide),
    h2 claim7gstore 0 (some ⟨⟨0, 1, some 1⟩, 1⟩) (some ⟨⟨6, 1, some 1⟩, 1⟩)
      (by decide) (by decide),
    h3 [[⟨7, 1, some 1⟩]] 0 none none (by decide)⟩

/-- Claim C8: the literal scenario — matching `[Mark1{1,1}, A{0,None},
Mark2{1,1}, B{0,None}]` against `[Mark1, Mark2, Mark2, Mark2, Mark2, str]` —
yields the grouping whose entries for the variadic placeholders are `⟨A, []⟩`
and `⟨B, [Mark2, Mark2, Mark2, str]⟩` (the full grouping also records the two
singular marker pairings). -/
theorem claim8_literal_scenario :
    matchAccumulateSequence claim8dest claim8src claim8pred
      (fun _ => "t") (fun _ => "t") 0 = some claim8result ∧
    claim8result.filter
        (fun grp => grp.destItem == (⟨2, 0, none⟩ : SequenceItem Nat) ||
          grp.destItem == (⟨4, 0, none⟩ : SequenceItem Nat)) =
      [⟨⟨2, 0, none⟩, []⟩,
        ⟨⟨4, 0, none⟩, [⟨3, 1, some 1⟩, ⟨3, 1, some 1⟩, ⟨3, 1, some 1⟩, ⟨5, 1, some 1⟩]⟩] :=
  ⟨rfl, by decide⟩

/-- Claim C9: the traversal result is a function of the sequences, the strategy
and the starting accumulator alone — the rendering functions and the recursion
count (diagnostic tracing only) do not influence it, and identical inputs give
identical results. -/
theorem claim9_deterministic {A B σ : Type}
    (a_sequence : List (SequenceItemMatchTracker A))
    (b_sequence : List (SequenceItemMatchTracker B))
    (S : SequenceAccumulator A B σ) (acc : σ)
    (a_str a_str2 : Option A → String) (b_str b_str2 : Option B → String)
    (recursionCount recursionCount2 : Nat) :
    traverseAccumulateSequence a_sequence b_sequence S acc a_str b_str recursionCount =
      traverseAccumulateSequence a_sequence b_sequence S acc a_str2 b_str2 recursionCount2 :=
  rfl

/-- Claim C10: every skip-chain successor index stays at least two ahead of the
current index and at most at the side's last element, so the past-the-end
position (`length`) can only be produced by the single advance-by-one successor. -/
theorem claim10_successor_bounds {T : Type} (t_sequence : List (SequenceItemMatchTracker T))
    (i : Int) (t_i t_i_next : Option (SequenceItemMatchTracker T)) :
    (∀ s ∈ skipChainSteps t_sequence (i + 1),
      i + 2 ≤ s.1 ∧ s.1 + 1 ≤ (t_sequence.length : Int)) ∧
    ((t_i.isSome = true → i < (t_sequence.length : Int)) →
      ∀ s ∈ getNextStepsForItem i t_i t_i_next t_sequence,
        (t_sequence.length : Int) ≤ s.1 → s.1 = i + 1) := by
  constructor
  · intro s hs
    have h := skipChainSteps_mem t_sequence (i + 1) s hs
    exact ⟨by omega, by omega⟩
  · intro hin s hs hge
    rcases getNextStepsForItem_mem i t_i t_i_next t_sequence s hs with
      ⟨h1, _, hsome⟩ | ⟨h1, _⟩ | ⟨h1, h2, _⟩
    · exfalso
      have := hin hsome
      omega
    · exact h1
    · exfalso
      omega

/-- Witness for claim C10: on a concrete sequence with a two-item skippable
prefix, the skip-chain successor `(2, …)` respects both bounds, and from the
last index the only at-or-past-the-end successor is advance-by-one. -/
theorem claim10_witness :
    ((0 : Int) + 2 ≤ ((2 : Int), listGet? claim10wseq 2).1 ∧
      ((2 : Int), listGet? claim10wseq 2).1 + 1 ≤ (claim10wseq.length : Int)) ∧
    ((3 : Int), (none : Option (SequenceItemMatchTracker Nat))).1 = 2 + 1 :=
  ⟨(claim10_successor_bounds claim10wseq 0 none none).1 (2, listGet? claim10wseq 2)
      (by decide),
   (claim10_successor_bounds claim10wseq 2 (some ⟨⟨2, 1, some 1⟩, 1⟩) none).2
      (fun _ => by decide) (3, none) (by decide) (by decide)⟩

end SequenceMatching
